import Mathlib

/-!
Verification of the girder `Setting` model (`girder/models/setting.py`):
a server-wide key/value settings store with a pluggable validator/default
registry, built-in validators for well-known keys, and a one-time
index-repair routine (`reconnect`).

The Python code is shallowly embedded: documents are records, the Mongo
collection is a list of documents, exceptions are `Except` results, and
the external validator/default registries are explicit function
parameters.
-/

set_option maxHeartbeats 1000000

namespace GirderSetting

/-- A Python/JSON-style value, as stored in a setting's `value` field. -/
inductive Value where
  | null : Value
  | bool (b : Bool) : Value
  | int (n : Int) : Value
  | str (s : String) : Value
  | list (vs : List Value) : Value
  | dict (kvs : List (String × Value)) : Value

/-- The `ValidationException` payload: a message and an optional field name
(the constructor's `field` argument defaults to `None` in Python). -/
structure ValidationException where
  message : String
  field : Option String

/-- Outcomes of running Python code that may raise: a `ValidationException`,
or an uncaught `TypeError` / `AttributeError`. -/
inductive PyErr where
  | validation (e : ValidationException) : PyErr
  | typeError (msg : String) : PyErr
  | attributeError (msg : String) : PyErr

/-- Whether a value is a Python string (`isinstance(v, six.string_types)`). -/
def isStr : Value → Bool
  | .str _ => true
  | _ => false

/-- Whether a value is a Python dict (`isinstance(v, dict)`). -/
def isDict : Value → Bool
  | .dict _ => true
  | _ => false

/-- Whether a result is a `ValidationException` failure on field `value`. -/
def isValidationFailureOnValue : Except PyErr Value → Bool
  | .error (.validation e) => e.field == some "value"
  | _ => false

/-- A persisted setting document: Mongo `_id` (when assigned), `key`, `value`. -/
structure SettingDoc where
  _id : Option Nat
  key : String
  value : Value

/-- A Mongo index, as far as `reconnect` inspects it: its name, the first
field of its key spec, and its unique flag. -/
structure Index where
  name : String
  field : String
  unique : Bool
deriving DecidableEq

/-- The state of the `setting` collection: its documents, the next
store-assigned identity, and its indices. -/
structure St where
  docs : List SettingDoc
  nextId : Nat
  indices : List Index

/-- The external validator registry: `setting_utilities.getValidator`.
A validator takes the candidate value and returns the normalized value or
raises. -/
abbrev Registry := String → Option (Value → Except PyErr Value)

/-- The external default-function registry:
`setting_utilities.getDefaultFunction`. -/
abbrev DefaultFns := String → Option (Unit → Value)

/-- The static built-in default table `SettingDefault.defaults`. -/
abbrev Defaults := List (String × Value)

/-- Lookup in the static default table (`key in SettingDefault.defaults`). -/
def lookupDefault (ds : Defaults) (k : String) : Option Value :=
  (ds.find? (fun p => p.1 == k)).map (·.2)

/-- `Setting.getDefault`: static default table first, then the registry's
default function (invoked with no arguments), else `None`. -/
def getDefault (ds : Defaults) (fns : DefaultFns) (k : String) : Value :=
  match lookupDefault ds k with
  | some v => v
  | none =>
    match fns k with
    | some f => f ()
    | none => Value.null

/-- `self.findOne({'key': key})`: first document whose `key` matches. -/
def findOne (docs : List SettingDoc) (k : String) : Option SettingDoc :=
  docs.find? (fun d => d.key == k)

/-- The check `default is '__default__'`. CPython interns the string
literal, so passing the literal string compares identical. -/
def isSentinel : Value → Bool
  | .str s => s == "__default__"
  | _ => false

/-- `Setting.get`: return the stored `value` verbatim if a document exists;
otherwise the caller-supplied default, unless it is the `'__default__'`
sentinel, in which case `getDefault` is consulted. -/
def get (ds : Defaults) (fns : DefaultFns) (st : St) (k : String)
    (default : Value := Value.str "__default__") : Value :=
  match findOne st.docs k with
  | some s => s.value
  | none => if isSentinel default then getDefault ds fns k else default

/-- `Setting.validate`: run the registered validator for the document's
key, or fail with `ValidationException(..., 'key')` when none is
registered. -/
def validate (reg : Registry) (doc : SettingDoc) : Except PyErr SettingDoc :=
  match reg doc.key with
  | some f => (f doc.value).map (fun v => { doc with value := v })
  | none =>
    .error (.validation
      ⟨"Invalid setting key \"" ++ doc.key ++ "\".", some "key"⟩)

/-- Modelled from the spec: `Model.save` (in `model_base.py`, which is not
part of this repository snapshot) routes the candidate document through
`validate` and then persists it — updating in place when it already has an
identity, otherwise inserting it with a store-assigned identity. -/
def save (reg : Registry) (st : St) (doc : SettingDoc) :
    Except PyErr (SettingDoc × St) :=
  match validate reg doc with
  | .error e => .error e
  | .ok doc =>
    match doc._id with
    | some i =>
      .ok (doc,
        { st with docs := st.docs.map (fun d => if d._id == some i then doc else d) })
    | none =>
      let doc := { doc with _id := some st.nextId }
      .ok (doc, { st with docs := st.docs ++ [doc], nextId := st.nextId + 1 })

/-- `Setting.set`: find an existing document for the key and overwrite its
value, or construct a fresh `{key, value}` document; then save (which
validates first). -/
def set (reg : Registry) (st : St) (k : String) (v : Value) :
    Except PyErr (SettingDoc × St) :=
  match findOne st.docs k with
  | none => save reg st ⟨none, k, v⟩
  | some s => save reg st { s with value := v }

/-- `Setting.unset`: remove every stored document matching the key
(`self.remove` is in `model_base.py`; per the spec it deletes the given
document). A no-op when none match. -/
def unset (st : St) (k : String) : St :=
  { st with docs := st.docs.filter (fun d => d.key != k) }

/-! ### Python string primitives, on `List Char` -/

/-- Python `str.replace(a, b)` for single characters. -/
def pyReplaceChar (l : List Char) (a b : Char) : List Char :=
  l.map (fun c => if c = a then b else c)

/-- Python `str.strip()`: drop leading and trailing whitespace. -/
def pyStrip (l : List Char) : List Char :=
  ((l.dropWhile Char.isWhitespace).reverse.dropWhile Char.isWhitespace).reverse

/-- Python `str.upper()` (ASCII model, matching the letters the code's
inputs use). -/
def pyUpper (l : List Char) : List Char := l.map Char.toUpper

/-- Python `str.lower()` (ASCII model). -/
def pyLower (l : List Char) : List Char := l.map Char.toLower

/-- Python `str.lower()` on a `String`. -/
def pyLowerS (s : String) : String := String.mk (pyLower s.data)

/-- Generic splitter: break a character list at separators `p`, discarding
empty tokens (the behavior of Python `str.split()` with no argument).
`acc` holds the current token, reversed. -/
def splitPAux (p : Char → Bool) : List Char → List Char → List (List Char)
  | [], acc => if acc.isEmpty then [] else [acc.reverse]
  | c :: cs, acc =>
    if p c then
      if acc.isEmpty then splitPAux p cs [] else acc.reverse :: splitPAux p cs []
    else
      splitPAux p cs (c :: acc)

/-- Python `str.split()` with no argument: split on whitespace runs. -/
def pySplitWhitespace (l : List Char) : List (List Char) :=
  splitPAux Char.isWhitespace l []

/-- Python `', '.join(...)` over tokens given as character lists. -/
def joinCommaSpace : List (List Char) → List Char
  | [] => []
  | [t] => t
  | t :: ts => t ++ ',' :: ' ' :: joinCommaSpace ts

/-- `OrderedDict.fromkeys(...)`: remove duplicates, keeping the first
occurrence of each element. `seen` accumulates the keys already emitted. -/
def dedupFirstAux {α : Type} [DecidableEq α] (seen : List α) :
    List α → List α
  | [] => []
  | x :: xs =>
    if x ∈ seen then dedupFirstAux seen xs
    else x :: dedupFirstAux (x :: seen) xs

/-- Remove duplicates keeping first occurrences. -/
def dedupFirst {α : Type} [DecidableEq α] (l : List α) : List α :=
  dedupFirstAux [] l

/-- Numeric value of a list of decimal digit characters. -/
def natOfDigits (l : List Char) : Nat :=
  l.foldl (fun a c => a * 10 + (c.toNat - 48)) 0

/-- Python `int(s)` on a string: optional surrounding whitespace, optional
sign, then a nonempty run of decimal digits; anything else raises
`ValueError`. -/
def pyIntOfStr (s : String) : Option Int :=
  match pyStrip s.data with
  | [] => none
  | c :: rest =>
    let signDigits : Bool × List Char :=
      if c = '-' then (true, rest)
      else if c = '+' then (false, rest)
      else (false, c :: rest)
    if signDigits.2 ≠ [] ∧ signDigits.2.all Char.isDigit then
      some ((if signDigits.1 then -1 else 1) * (natOfDigits signDigits.2 : Int))
    else none

/-- How Python `int(...)` can fail: `ValueError` (unparseable string) or
`TypeError` (unsupported operand type). -/
inductive PyIntErr where
  | valueError : PyIntErr
  | typeError : PyIntErr
deriving DecidableEq

/-- Python `int(v)`: identity on ints, 0/1 on bools, decimal parse on
strings (`ValueError` on failure), `TypeError` on null / lists / dicts. -/
def pyInt : Value → Except PyIntErr Int
  | .int n => .ok n
  | .bool b => .ok (if b then 1 else 0)
  | .str s =>
    match pyIntOfStr s with
    | some n => .ok n
    | none => .error .valueError
  | .null => .error .typeError
  | .list _ => .error .typeError
  | .dict _ => .error .typeError

/-! ### Built-in validators used by the claims -/

/-- The tuple of allowed add-to-group policy values. -/
def addToGroupPolicyAllowed : List String :=
  ["never", "noadmin", "nomod", "yesadmin", "yesmod", ""]

/-- `Setting.validateCoreAddToGroupPolicy`: lower-case the value; accept it
when it is one of the allowed policies, else raise
`ValidationException(..., 'value')`. Calling `.lower()` on a non-string
raises an uncaught `AttributeError`. -/
def validateCoreAddToGroupPolicy : Value → Except PyErr Value
  | .str s =>
    let t := pyLowerS s
    if t ∈ addToGroupPolicyAllowed then .ok (.str t)
    else
      .error (.validation
        ⟨"Add to group policy must be one of \"never\", \"noadmin\", " ++
          "\"nomod\", \"yesadmin\", or \"yesmod\".", some "value"⟩)
  | _ => .error (.attributeError "object has no attribute lower")

/-- Python `d[k] = v` on a dict: replace the binding if the key is
present, otherwise append it. -/
def dictSet (kvs : List (String × Value)) (k : String) (v : Value) :
    List (String × Value) :=
  if kvs.any (fun p => p.1 == k) then
    kvs.map (fun p => if p.1 == k then (k, v) else p)
  else kvs ++ [(k, v)]

/-- Python `d.get(k)` on a dict. -/
def dictGet (kvs : List (String × Value)) (k : String) : Option Value :=
  (kvs.find? (fun p => p.1 == k)).map (·.2)

/-- `Setting.validateCoreCollectionCreatePolicy`: a non-dict value raises
`ValidationException` with NO field argument; for a dict, each referenced
group/user id is resolved and canonicalized (`resolveIds` stands for the
`ModelImporter` lookups and `ObjectId` conversion, external collaborators
not in this repository snapshot), and the `open` flag defaults to
`False` when absent. -/
def validateCoreCollectionCreatePolicy
    (resolveIds : List (String × Value) → Except PyErr (List (String × Value))) :
    Value → Except PyErr Value
  | .dict kvs =>
    match resolveIds kvs with
    | .error e => .error e
    | .ok kvs =>
      let opn := match dictGet kvs "open" with
        | some b => b
        | none => Value.bool false
      .ok (.dict (dictSet kvs "open" opn))
  | _ =>
    .error (.validation ⟨"Collection creation policy must be a JSON object.", none⟩)

/-- `Setting.validateCoreCookieLifetime`: `int(value)` must succeed and be
strictly positive; a `ValueError` from the conversion is caught and turned
into the same `ValidationException(..., 'value')`; a `TypeError` is NOT
caught and propagates. -/
def validateCoreCookieLifetime (v : Value) : Except PyErr Value :=
  match pyInt v with
  | .ok n =>
    if 0 < n then .ok (.int n)
    else .error (.validation ⟨"Cookie lifetime must be an integer > 0.", some "value"⟩)
  | .error .valueError =>
    .error (.validation ⟨"Cookie lifetime must be an integer > 0.", some "value"⟩)
  | .error .typeError =>
    .error (.typeError "int() argument must be a string or a number")

/-- `Setting.validateCoreCorsAllowMethods`: for a string, replace commas
with spaces, strip, upper-case, split on whitespace, dedup keeping first
occurrences, and rejoin with a comma and space; a non-string raises
`ValidationException(..., 'value')`. -/
def validateCoreCorsAllowMethods : Value → Except PyErr Value
  | .str s =>
    let methods := pySplitWhitespace (pyUpper (pyStrip (pyReplaceChar s.data ',' ' ')))
    .ok (.str (String.mk (joinCommaSpace (dedupFirst methods))))
  | _ =>
    .error (.validation
      ⟨"Allowed methods must be a comma-separated list or an empty string.", some "value"⟩)

/-- Follows the spec's words (refinement side of C5): split the string on
commas and whitespace, upper-case each token, remove duplicates keeping
first-seen order, and rejoin with a comma and space. -/
def corsMethodsSpecNormalize (s : String) : String :=
  String.mk (joinCommaSpace (dedupFirst
    ((splitPAux (fun c => c = ',' || c.isWhitespace) s.data []).map
      (fun t => t.map Char.toUpper))))

/-! ### `Setting.reconnect`: the index-repair routine -/

/-- The `for index in indices:` loop of `reconnect`: returns whether a
unique index on `key` was found (breaking at the first), and the names of
the non-unique `key` indices collected along the way. -/
def scanIndices : List Index → Bool × List String
  | [] => (false, [])
  | i :: rest =>
    if i.field = "key" then
      if i.unique then (true, [])
      else
        let r := scanIndices rest
        (r.1, i.name :: r.2)
    else scanIndices rest

/-- The `_id`s of the documents holding a given key (the aggregation's
`$addToSet: '$_id'` per group). -/
def idsForKey (docs : List SettingDoc) (k : String) : List Nat :=
  docs.filterMap (fun d => if d.key == k then d._id else none)

/-- The distinct keys of the collection, in first-appearance order. -/
def docKeys (docs : List SettingDoc) : List String :=
  dedupFirst (docs.map (·.key))

/-- The keys held by more than one document (the aggregation's
`$match: {count: {$gt: 1}}`). -/
def dupKeys (docs : List SettingDoc) : List String :=
  (docKeys docs).filter (fun k => 2 ≤ (docs.filter (fun d => d.key == k)).length)

/-- Python `sorted` on a list of ids. -/
def sortIds (l : List Nat) : List Nat := l.insertionSort (· ≤ ·)

/-- The ids deleted by the duplicate-removal loop: for every duplicated
key, all ids except the smallest (`sorted(duplicate['ids'])[1:]`). -/
def dupIdsToDelete (docs : List SettingDoc) : List Nat :=
  (dupKeys docs).foldr (fun k acc => (sortIds (idsForKey docs k)).drop 1 ++ acc) []

/-- Whether the duplicate-removal loop keeps a document: it is deleted
exactly when its `_id` is among the ids scheduled for deletion. -/
def keepDoc (toDelete : List Nat) (d : SettingDoc) : Bool :=
  match d._id with
  | some i => decide (i ∉ toDelete)
  | none => true

/-- The documents surviving the duplicate-removal loop. -/
def reconnectDocs (docs : List SettingDoc) : List SettingDoc :=
  docs.filter (keepDoc (dupIdsToDelete docs))

/-- `Setting.reconnect`: if a unique index on `key` exists, do nothing;
otherwise drop the non-unique `key` indices, delete every duplicate
document except the one with the smallest `_id` per key, and create a
unique index on `key`. -/
def reconnect (st : St) : St :=
  if (scanIndices st.indices).1 then st
  else
    { st with
      docs := reconnectDocs st.docs,
      indices := st.indices.filter (fun i => ¬ (scanIndices st.indices).2.contains i.name) ++
        [{ name := "key_1", field := "key", unique := true }] }

/-! ### Helper lemmas about the store -/

theorem findOne_some_key {docs : List SettingDoc} {k : String} {d : SettingDoc} (h : findOne docs k = some d) : d.key = k := by
  have hp := List.find?_some h
  exact eq_of_beq hp

theorem findOne_some_mem {docs : List SettingDoc} {k : String} {d : SettingDoc} (h : findOne docs k = some d) : d ∈ docs :=
  List.mem_of_find?_eq_some h

theorem findOne_unset_none (docs : List SettingDoc) (k : String) : findOne (docs.filter (fun d => d.key != k)) k = none := by
  cases hf : findOne (docs.filter (fun d => d.key != k)) k with
  | none => rfl
  | some d =>
    exfalso
    have hk := List.find?_some hf
    have hm := List.mem_of_find?_eq_some hf
    have hne := List.of_mem_filter hm
    rw [bne_iff_ne] at hne
    exact hne (eq_of_beq hk)

/-! ### C1: resolution order of `get` -/

/-- C1 (corrected), counterexample: with an empty store and empty
registry, explicitly passing the default `'__default__'` to `get` does not
return that default — `get` falls through to `getDefault`, which yields
null. This refutes the claim that any explicitly passed default is
returned when no document is stored. -/
theorem get_explicit_sentinel_not_returned :
    get [] (fun _ => none) ⟨[], 0, []⟩ "k" (Value.str "__default__") = Value.null ∧
      Value.null ≠ Value.str "__default__" :=
  ⟨rfl, nofun⟩

/-- C1 (amended): if a document with key `k` is stored, `get` returns its
`value` field verbatim; if none is stored and the caller passed an
explicit default other than the sentinel string `'__default__'`, that
default is returned; if none is stored and no default was passed (the
parameter's default is the sentinel itself), `getDefault k` is returned. -/
theorem get_resolution_amended (ds : Defaults) (fns : DefaultFns) (st : St) (k : String) :
    (∀ d D, findOne st.docs k = some d → get ds fns st k D = d.value) ∧
      (∀ D, findOne st.docs k = none → isSentinel D = false → get ds fns st k D = D) ∧
      (findOne st.docs k = none →
        get ds fns st k (Value.str "__default__") = getDefault ds fns k) := by
  refine ⟨?_, ?_, ?_⟩
  · intro d D h
    unfold get
    rw [h]
  · intro D h hs
    unfold get
    rw [h, hs]
    simp
  · intro h
    unfold get
    rw [h]
    rfl

/-- C1 witness: concrete instances of all three amended cases. -/
theorem get_resolution_amended_witness :
    get [] (fun _ => none) ⟨[⟨some 0, "k", Value.int 7⟩], 1, []⟩ "k" (Value.int 9) = Value.int 7 ∧
      get [] (fun _ => none) ⟨[], 0, []⟩ "k" (Value.int 9) = Value.int 9 ∧
      get [("k", Value.int 3)] (fun _ => none) ⟨[], 0, []⟩ "k" (Value.str "__default__") =
        getDefault [("k", Value.int 3)] (fun _ => none) "k" :=
  ⟨(get_resolution_amended [] (fun _ => none) ⟨[⟨some 0, "k", Value.int 7⟩], 1, []⟩ "k").1
      ⟨some 0, "k", Value.int 7⟩ (Value.int 9) rfl,
    (get_resolution_amended [] (fun _ => none) ⟨[], 0, []⟩ "k").2.1 (Value.int 9) rfl rfl,
    (get_resolution_amended [("k", Value.int 3)] (fun _ => none) ⟨[], 0, []⟩ "k").2.2 rfl⟩

/-! ### C2: `set` on an unregistered key -/

/-- C2: for a key with no registered validator, `set` fails with a
`ValidationException` on field `key`, and (since the validation failure
happens before the persistence step of `save`) no new state is produced,
so no document is persisted. -/
theorem set_unregistered_key_fails (reg : Registry) (st : St) (k : String) (v : Value) (h : reg k = none) :
    set reg st k v =
        .error (.validation ⟨"Invalid setting key \"" ++ k ++ "\".", some "key"⟩) ∧
      ∀ r, set reg st k v ≠ .ok r := by
  have hmain : set reg st k v =
      .error (.validation ⟨"Invalid setting key \"" ++ k ++ "\".", some "key"⟩) := by
    unfold set
    cases hf : findOne st.docs k with
    | none =>
      unfold save validate
      simp [h]
    | some s =>
      have hk : s.key = k := findOne_some_key hf
      unfold save validate
      simp [hk, h]
  exact ⟨hmain, fun r hr => by rw [hmain] at hr; exact Except.noConfusion hr⟩

/-- C2 witness: with an empty registry, `set` of any value fails on field
`key` and persists nothing. -/
theorem set_unregistered_key_fails_witness :
    set (fun _ => none) ⟨[], 0, []⟩ "foo" (Value.int 1) =
        .error (.validation ⟨"Invalid setting key \"foo\".", some "key"⟩) ∧
      ∀ r, set (fun _ => none) ⟨[], 0, []⟩ "foo" (Value.int 1) ≠ .ok r :=
  set_unregistered_key_fails (fun _ => none) ⟨[], 0, []⟩ "foo" (Value.int 1) rfl

/-! ### C3: resolution order of `getDefault` -/

/-- C3: `getDefault` returns the static table's literal value when the key
is present there; otherwise the result of the registry's default-producer
function invoked with no arguments, when one exists; otherwise null. -/
theorem getDefault_resolution_order (ds : Defaults) (fns : DefaultFns) (k : String) :
    (∀ v, lookupDefault ds k = some v → getDefault ds fns k = v) ∧
      (∀ f, lookupDefault ds k = none → fns k = some f → getDefault ds fns k = f ()) ∧
      (lookupDefault ds k = none → fns k = none → getDefault ds fns k = Value.null) := by
  refine ⟨?_, ?_, ?_⟩
  · intro v h
    unfold getDefault
    rw [h]
  · intro f h hf
    unfold getDefault
    rw [h, hf]
  · intro h hf
    unfold getDefault
    rw [h, hf]

/-- C3 witness: the three resolution cases at concrete inputs. -/
theorem getDefault_resolution_order_witness :
    getDefault [("a", Value.int 1)] (fun s => if s = "b" then some (fun _ => Value.int 2) else none) "a" = Value.int 1 ∧
      getDefault [("a", Value.int 1)] (fun s => if s = "b" then some (fun _ => Value.int 2) else none) "b" = Value.int 2 ∧
      getDefault [("a", Value.int 1)] (fun s => if s = "b" then some (fun _ => Value.int 2) else none) "c" = Value.null :=
  ⟨(getDefault_resolution_order _ _ "a").1 (Value.int 1) rfl,
    (getDefault_resolution_order _ _ "b").2.1 (fun _ => Value.int 2) rfl rfl,
    (getDefault_resolution_order _ _ "c").2.2 rfl rfl⟩

/-! ### C9: `unset` followed by `get` -/

/-- C9 (corrected), counterexample: after `unset`, passing the sentinel
string `'__default__'` as the explicit default does not get it back —
the empty registry's default (null) is returned instead. -/
theorem unset_get_sentinel_cex :
    get [] (fun _ => none) (unset ⟨[⟨some 0, "a", Value.int 1⟩], 1, []⟩ "a") "a"
        (Value.str "__default__") = Value.null ∧
      Value.null ≠ Value.str "__default__" :=
  ⟨rfl, nofun⟩

/-- C9 (amended): `unset k` removes every stored document matching `k`
(it is a no-op when none match), so a subsequent `get (k, default = D)`
returns `D` for every caller-supplied default `D` other than the sentinel
string `'__default__'`. -/
theorem unset_then_get_amended (ds : Defaults) (fns : DefaultFns) (st : St) (k : String) :
    (∀ D, isSentinel D = false → get ds fns (unset st k) k D = D) ∧
      findOne (unset st k).docs k = none ∧
      (findOne st.docs k = none → unset st k = st) := by
  refine ⟨?_, findOne_unset_none st.docs k, ?_⟩
  · intro D hs
    unfold get
    rw [show findOne (unset st k).docs k = none from findOne_unset_none st.docs k, hs]
    simp
  · intro h
    have hall : ∀ d ∈ st.docs, (d.key != k) = true := by
      intro d hd
      have := List.find?_eq_none.mp h d hd
      rw [bne_iff_ne]
      intro he
      exact this (by rw [he]; exact beq_self_eq_true k)
    cases st with
    | mk docs nextId indices =>
      unfold unset
      rw [show docs.filter (fun d => d.key != k) = docs from List.filter_eq_self.mpr hall]

/-- C9 witness: deleting a stored key and reading it back with an explicit
default returns that default; `unset` of an absent key changes nothing. -/
theorem unset_then_get_amended_witness :
    get [] (fun _ => none) (unset ⟨[⟨some 0, "a", Value.int 1⟩], 1, []⟩ "a") "a"
        (Value.int 42) = Value.int 42 ∧
      unset ⟨[⟨some 0, "a", Value.int 1⟩], 1, []⟩ "b" = ⟨[⟨some 0, "a", Value.int 1⟩], 1, []⟩ :=
  ⟨(unset_then_get_amended [] (fun _ => none) ⟨[⟨some 0, "a", Value.int 1⟩], 1, []⟩ "a").1
      (Value.int 42) rfl,
    (unset_then_get_amended [] (fun _ => none) ⟨[⟨some 0, "a", Value.int 1⟩], 1, []⟩ "b").2.2 rfl⟩

/-! ### C10: the `'__default__'` sentinel -/

/-- C10: the no-default case of `get` is detected by comparing the default
argument with the literal string `'__default__'`; hence a caller who
explicitly passes that string for a key with no stored document falls
through to `getDefault`, exactly as if no default had been passed. -/
theorem get_sentinel_fallthrough (ds : Defaults) (fns : DefaultFns) (st : St) (k : String) (h : findOne st.docs k = none) :
    get ds fns st k (Value.str "__default__") = getDefault ds fns k := by
  unfold get
  rw [h]
  rfl

/-- C10 witness: with an empty store, passing `'__default__'` explicitly
returns the computed default. -/
theorem get_sentinel_fallthrough_witness :
    get [("k", Value.int 3)] (fun _ => none) ⟨[], 0, []⟩ "k" (Value.str "__default__") =
      getDefault [("k", Value.int 3)] (fun _ => none) "k" :=
  get_sentinel_fallthrough [("k", Value.int 3)] (fun _ => none) ⟨[], 0, []⟩ "k" rfl

/-! ### C6: the cookie-lifetime validator -/

/-- C6 (corrected), counterexample: on the value null, `int(...)` raises a
`TypeError`, which the validator's `except ValueError` does not catch; the
failure is therefore not a `ValidationException` on field `value` as the
claim states. -/
theorem cookieLifetime_null_cex :
    validateCoreCookieLifetime Value.null =
        .error (.typeError "int() argument must be a string or a number") ∧
      isValidationFailureOnValue (validateCoreCookieLifetime Value.null) = false :=
  ⟨rfl, rfl⟩

/-- C6 (amended): when `int(value)` succeeds with a result `n > 0` the
validator stores the integer `n`; when it succeeds with `n ≤ 0`, and when
a string fails to parse (`ValueError`), the validator fails with the one
`ValidationException` on field `value`; but values of non-numeric,
non-string type (null, lists, objects) raise an uncaught `TypeError`
instead. In particular `"3600"` normalizes to the integer `3600` and
`"0"` fails validation. -/
theorem cookieLifetime_amended :
    (∀ v n, pyInt v = .ok n → 0 < n → validateCoreCookieLifetime v = .ok (.int n)) ∧
      (∀ v n, pyInt v = .ok n → n ≤ 0 →
        validateCoreCookieLifetime v =
          .error (.validation ⟨"Cookie lifetime must be an integer > 0.", some "value"⟩)) ∧
      (∀ s, pyIntOfStr s = none →
        validateCoreCookieLifetime (.str s) =
          .error (.validation ⟨"Cookie lifetime must be an integer > 0.", some "value"⟩)) ∧
      (∀ v, pyInt v = .error .typeError →
        validateCoreCookieLifetime v =
          .error (.typeError "int() argument must be a string or a number")) ∧
      validateCoreCookieLifetime (.str "3600") = .ok (.int 3600) ∧
      validateCoreCookieLifetime (.str "0") =
        .error (.validation ⟨"Cookie lifetime must be an integer > 0.", some "value"⟩) := by
  refine ⟨?_, ?_, ?_, ?_, rfl, rfl⟩
  · intro v n h hp
    unfold validateCoreCookieLifetime
    rw [h]
    simp [hp]
  · intro v n h hnp
    unfold validateCoreCookieLifetime
    rw [h]
    simp [show ¬ (0 : Int) < n by omega]
  · intro s h
    unfold validateCoreCookieLifetime
    simp only [pyInt, h]
  · intro v h
    unfold validateCoreCookieLifetime
    rw [h]

/-- C6 witness: a parse success, a non-positive success, a parse failure,
and an uncaught type error, at concrete inputs. -/
theorem cookieLifetime_amended_witness :
    validateCoreCookieLifetime (.str "5") = .ok (.int 5) ∧
      validateCoreCookieLifetime (.bool false) =
        .error (.validation ⟨"Cookie lifetime must be an integer > 0.", some "value"⟩) ∧
      validateCoreCookieLifetime (.str "abc") =
        .error (.validation ⟨"Cookie lifetime must be an integer > 0.", some "value"⟩) ∧
      validateCoreCookieLifetime (.list []) =
        .error (.typeError "int() argument must be a string or a number") :=
  ⟨cookieLifetime_amended.1 (.str "5") 5 rfl (by decide),
    cookieLifetime_amended.2.1 (.bool false) 0 rfl (by decide),
    cookieLifetime_amended.2.2.1 "abc" rfl,
    cookieLifetime_amended.2.2.2.1 (.list []) rfl⟩

/-! ### C7: the add-to-group-policy validator -/

/-- C7: the validator lower-cases the value and accepts it exactly when
the result is one of the five policies or the empty string, failing with a
`ValidationException` on field `value` otherwise; `"NOADMIN"` normalizes
to `"noadmin"` and `"bogus"` fails. -/
theorem addToGroupPolicy_lowercase_enum :
    (∀ s : String,
        validateCoreAddToGroupPolicy (.str s) =
          if pyLowerS s ∈ addToGroupPolicyAllowed then .ok (.str (pyLowerS s))
          else
            .error (.validation
              ⟨"Add to group policy must be one of \"never\", \"noadmin\", " ++
                "\"nomod\", \"yesadmin\", or \"yesmod\".", some "value"⟩)) ∧
      validateCoreAddToGroupPolicy (.str "NOADMIN") = .ok (.str "noadmin") ∧
      validateCoreAddToGroupPolicy (.str "bogus") =
        .error (.validation
          ⟨"Add to group policy must be one of \"never\", \"noadmin\", " ++
            "\"nomod\", \"yesadmin\", or \"yesmod\".", some "value"⟩) :=
  ⟨fun _ => rfl, rfl, rfl⟩

/-! ### C8: fields of validator failures -/

/-- C8 (corrected), counterexample: the collection-creation-policy
validator, rejecting a value that is not a structured object, raises a
`ValidationException` with NO field argument (field is `None`), not field
`value` as the claim states. -/
theorem collectionCreatePolicy_field_cex :
    validateCoreCollectionCreatePolicy (fun kvs => .ok kvs) (.str "notadict") =
        .error (.validation ⟨"Collection creation policy must be a JSON object.", none⟩) ∧
      isValidationFailureOnValue
        (validateCoreCollectionCreatePolicy (fun kvs => .ok kvs) (.str "notadict")) = false :=
  ⟨rfl, rfl⟩

/-- C8 (amended): built-in validator failures carry field `value` — as
illustrated by the CORS-methods, cookie-lifetime and add-to-group-policy
validators — except the collection-creation-policy rejection of a
non-object value, whose `ValidationException` carries no field at all. -/
theorem validator_failure_fields_amended :
    (∀ resolveIds v, isDict v = false →
        validateCoreCollectionCreatePolicy resolveIds v =
          .error (.validation ⟨"Collection creation policy must be a JSON object.", none⟩)) ∧
      (∀ v, isStr v = false →
        isValidationFailureOnValue (validateCoreCorsAllowMethods v) = true) ∧
      isValidationFailureOnValue (validateCoreCookieLifetime (.str "0")) = true ∧
      isValidationFailureOnValue (validateCoreAddToGroupPolicy (.str "bogus")) = true := by
  refine ⟨?_, ?_, rfl, rfl⟩
  · intro resolveIds v h
    cases v with
    | dict kvs => exact absurd h (by simp [isDict])
    | null => rfl
    | bool b => rfl
    | int n => rfl
    | str s => rfl
    | list vs => rfl
  · intro v h
    cases v with
    | str s => exact absurd h (by simp [isStr])
    | null => rfl
    | bool b => rfl
    | int n => rfl
    | dict kvs => rfl
    | list vs => rfl

/-- C8 witness: the non-object rejection at a concrete non-dict value and
a concrete non-string CORS value. -/
theorem validator_failure_fields_amended_witness :
    validateCoreCollectionCreatePolicy (fun kvs => .ok kvs) (Value.int 3) =
        .error (.validation ⟨"Collection creation policy must be a JSON object.", none⟩) ∧
      isValidationFailureOnValue (validateCoreCorsAllowMethods (Value.int 3)) = true :=
  ⟨validator_failure_fields_amended.1 (fun kvs => .ok kvs) (Value.int 3) rfl,
    validator_failure_fields_amended.2.1 (Value.int 3) rfl⟩

/-! ### Character-level lemmas for the CORS pipeline -/

theorem toNat_ofNat_valid {n : Nat} (h : n.isValidChar) : (Char.ofNat n).toNat = n := by
  unfold Char.ofNat
  rw [dif_pos h]
  rfl

theorem isWhitespace_false_of_toNat (c : Char) (h : 64 < c.toNat) : c.isWhitespace = false := by
  have h1 : c ≠ ' ' := fun e => by rw [e] at h; exact absurd h (by decide)
  have h2 : c ≠ '\t' := fun e => by rw [e] at h; exact absurd h (by decide)
  have h3 : c ≠ '\r' := fun e => by rw [e] at h; exact absurd h (by decide)
  have h4 : c ≠ '\n' := fun e => by rw [e] at h; exact absurd h (by decide)
  simp [Char.isWhitespace, h1, h2, h3, h4]

theorem isWhitespace_toUpper (c : Char) : (Char.toUpper c).isWhitespace = c.isWhitespace := by
  simp only [Char.toUpper]
  by_cases h : c.toNat ≥ 97 ∧ c.toNat ≤ 122
  · rw [if_pos h]
    have hvalid : (c.toNat - 32).isValidChar := Or.inl (by omega)
    have h1 : (Char.ofNat (c.toNat - 32)).toNat = c.toNat - 32 := toNat_ofNat_valid hvalid
    rw [isWhitespace_false_of_toNat _ (by omega), isWhitespace_false_of_toNat _ (by omega)]
  · rw [if_neg h]

theorem isWhitespace_replaceComma (c : Char) :
    (if c = ',' then ' ' else c).isWhitespace = (c = ',' || c.isWhitespace) := by
  by_cases hc : c = ','
  · simp [hc]
  · simp [hc]

/-! ### Splitter lemmas -/

theorem splitPAux_map (f : Char → Char) (p q : Char → Bool) (hpq : ∀ c, p (f c) = q c) :
    ∀ (l acc : List Char),
      splitPAux p (l.map f) (acc.map f) = (splitPAux q l acc).map (List.map f) := by
  intro l
  induction l with
  | nil =>
    intro acc
    cases acc with
    | nil => simp [splitPAux]
    | cons a as => simp [splitPAux, List.map_reverse]
  | cons c cs ih =>
    intro acc
    simp only [List.map_cons, splitPAux, hpq c]
    by_cases hq : q c = true
    · rw [if_pos hq, if_pos hq]
      cases acc with
      | nil =>
        simpa using ih []
      | cons a as =>
        have := ih []
        simp only [List.map_nil] at this
        simp [this, List.map_reverse]
    · have hq' : q c = false := by simpa using hq
      rw [if_neg (by simp [hq']), if_neg (by simp [hq'])]
      simpa using ih (c :: acc)

theorem splitPAux_token_pred (p : Char → Bool) :
    ∀ (l acc : List Char), (∀ c ∈ acc, p c = false) →
      ∀ t ∈ splitPAux p l acc, ∀ c ∈ t, p c = false := by
  intro l
  induction l with
  | nil =>
    intro acc hacc t ht c hc
    simp only [splitPAux] at ht
    cases acc with
    | nil => simp at ht
    | cons a as =>
      rw [if_neg (by simp)] at ht
      have ht' : t = (a :: as).reverse := List.mem_singleton.mp ht
      subst ht'
      exact hacc c (List.mem_reverse.mp hc)
  | cons x xs ih =>
    intro acc hacc t ht c hc
    simp only [splitPAux] at ht
    by_cases hp : p x = true
    · rw [if_pos hp] at ht
      cases acc with
      | nil =>
        simp only [List.isEmpty_nil, if_true] at ht
        exact ih [] (by simp) t ht c hc
      | cons a as =>
        rw [if_neg (by simp)] at ht
        cases ht with
        | head =>
          exact hacc c (List.mem_reverse.mp hc)
        | tail _ hmem =>
          exact ih [] (by simp) t hmem c hc
    · have hp' : p x = false := by simpa using hp
      rw [if_neg (by simp [hp'])] at ht
      refine ih (x :: acc) ?_ t ht c hc
      intro d hd
      cases hd with
      | head => exact hp'
      | tail _ hdm => exact hacc d hdm

theorem splitPAux_all_sep (p : Char → Bool) :
    ∀ (t : List Char), (∀ c ∈ t, p c = true) →
      ∀ acc, splitPAux p t acc = if acc.isEmpty then [] else [acc.reverse] := by
  intro t
  induction t with
  | nil => intro _ acc; simp [splitPAux]
  | cons c cs ih =>
    intro ht acc
    have hc : p c = true := ht c (List.mem_cons_self c cs)
    have hcs : ∀ d ∈ cs, p d = true := fun d hd => ht d (List.mem_cons_of_mem c hd)
    simp only [splitPAux, if_pos hc]
    cases acc with
    | nil => simpa using ih hcs []
    | cons a as =>
      have := ih hcs []
      simp only [List.isEmpty_nil, if_true] at this
      simp [this]

theorem splitPAux_append_sep (p : Char → Bool) (t : List Char) (ht : ∀ c ∈ t, p c = true) :
    ∀ (l acc : List Char), splitPAux p (l ++ t) acc = splitPAux p l acc := by
  intro l
  induction l with
  | nil =>
    intro acc
    rw [List.nil_append]
    rw [splitPAux_all_sep p t ht acc]
    simp [splitPAux]
  | cons c cs ih =>
    intro acc
    rw [List.cons_append]
    simp only [splitPAux]
    by_cases hp : p c = true
    · rw [if_pos hp, if_pos hp]
      cases acc <;> simp [ih]
    · rw [if_neg hp, if_neg hp]
      exact ih (c :: acc)

theorem splitPAux_dropWhile_leading (p : Char → Bool) :
    ∀ l : List Char, splitPAux p (l.dropWhile p) [] = splitPAux p l [] := by
  intro l
  induction l with
  | nil => rfl
  | cons c cs ih =>
    by_cases hp : p c = true
    · rw [List.dropWhile_cons_of_pos hp]
      rw [ih]
      simp [splitPAux, hp]
    · rw [List.dropWhile_cons_of_neg (by simpa using hp)]

theorem splitPAux_pyStrip (l : List Char) :
    splitPAux Char.isWhitespace (pyStrip l) [] = splitPAux Char.isWhitespace l [] := by
  unfold pyStrip
  rw [← splitPAux_dropWhile_leading Char.isWhitespace l]
  set m := l.dropWhile Char.isWhitespace with hm
  have hdecomp : m = (m.reverse.dropWhile Char.isWhitespace).reverse ++
      (m.reverse.takeWhile Char.isWhitespace).reverse := by
    conv_lhs => rw [← List.reverse_reverse m]
    rw [← List.reverse_append, List.takeWhile_append_dropWhile]
  have hsep : ∀ c ∈ (m.reverse.takeWhile Char.isWhitespace).reverse, c.isWhitespace = true := by
    intro c hc
    rw [List.mem_reverse] at hc
    exact List.mem_takeWhile_imp hc
  conv_rhs => rw [hdecomp]
  rw [splitPAux_append_sep Char.isWhitespace _ hsep]

theorem map_id_of_mem {α : Type} (f : α → α) :
    ∀ l : List α, (∀ a ∈ l, f a = a) → l.map f = l := by
  intro l
  induction l with
  | nil => intro _; rfl
  | cons a as ih =>
    intro h
    rw [List.map_cons, h a (List.mem_cons_self a as), ih (fun b hb => h b (List.mem_cons_of_mem a hb))]

theorem splitPAux_map_id (p : Char → Bool) (f : Char → Char) (hf : ∀ c, p c = false → f c = c)
    (l : List Char) : (splitPAux p l []).map (List.map f) = splitPAux p l [] := by
  refine map_id_of_mem (List.map f) (splitPAux p l []) ?_
  intro t ht
  refine map_id_of_mem f t ?_
  intro c hc
  exact hf c (splitPAux_token_pred p l [] (by simp) t ht c hc)

/-- The code pipeline of `validateCoreCorsAllowMethods` (replace commas
with spaces, strip, upper-case, split on whitespace) computes the same
token list as the spec's description (split on commas and whitespace,
then upper-case each token). -/
theorem corsPipeline_eq_spec (l : List Char) :
    pySplitWhitespace (pyUpper (pyStrip (pyReplaceChar l ',' ' '))) =
      (splitPAux (fun c => c = ',' || c.isWhitespace) l []).map (List.map Char.toUpper) := by
  unfold pySplitWhitespace pyUpper
  have step1 := splitPAux_map Char.toUpper Char.isWhitespace Char.isWhitespace
    isWhitespace_toUpper (pyStrip (pyReplaceChar l ',' ' ')) []
  simp only [List.map_nil] at step1
  rw [step1, splitPAux_pyStrip]
  unfold pyReplaceChar
  have step3 := splitPAux_map (fun c => if c = ',' then ' ' else c) Char.isWhitespace
    (fun c => c = ',' || c.isWhitespace) isWhitespace_replaceComma l []
  simp only [List.map_nil] at step3
  rw [step3]
  rw [splitPAux_map_id (fun c => c = ',' || c.isWhitespace) (fun c => if c = ',' then ' ' else c)
    (fun c hc => by
      show (if c = ',' then ' ' else c) = c
      have hne : c ≠ ',' := by
        intro he
        rw [he] at hc
        simp at hc
      rw [if_neg hne]) l]

/-! ### C5: the CORS-allowed-methods validator -/

/-- C5: for every string value, the validator normalizes it exactly as the
spec describes — split on commas and whitespace, upper-case the tokens,
remove duplicates preserving first-seen order, rejoin with a comma and
space; in particular `"get, GET, post"` normalizes to `"GET, POST"`. A
non-string value fails with a `ValidationException` on field `value`. -/
theorem corsAllowMethods_normalizes :
    (∀ s : String,
        validateCoreCorsAllowMethods (.str s) = .ok (.str (corsMethodsSpecNormalize s))) ∧
      validateCoreCorsAllowMethods (.str "get, GET, post") = .ok (.str "GET, POST") ∧
      (∀ v, isStr v = false →
        validateCoreCorsAllowMethods v =
          .error (.validation
            ⟨"Allowed methods must be a comma-separated list or an empty string.",
              some "value"⟩)) := by
  refine ⟨?_, rfl, ?_⟩
  · intro s
    unfold validateCoreCorsAllowMethods corsMethodsSpecNormalize
    dsimp only
    rw [corsPipeline_eq_spec]
  · intro v h
    cases v with
    | str s => exact absurd h (by simp [isStr])
    | null => rfl
    | bool b => rfl
    | int n => rfl
    | dict kvs => rfl
    | list vs => rfl

/-- C5 witness: the normalization at `"get, GET, post"` via the general
statement, and the non-string failure at a concrete list value. -/
theorem corsAllowMethods_normalizes_witness :
    validateCoreCorsAllowMethods (.str "get, GET, post") =
        .ok (.str (corsMethodsSpecNormalize "get, GET, post")) ∧
      validateCoreCorsAllowMethods (.list []) =
        .error (.validation
          ⟨"Allowed methods must be a comma-separated list or an empty string.",
            some "value"⟩) :=
  ⟨corsAllowMethods_normalizes.1 "get, GET, post",
    corsAllowMethods_normalizes.2.2 (.list []) rfl⟩

/-! ### Lemmas for the index-repair routine (C4) -/

theorem scanIndices_fst_iff (l : List Index) :
    (scanIndices l).1 = true ↔ ∃ i ∈ l, i.field = "key" ∧ i.unique = true := by
  induction l with
  | nil => simp [scanIndices]
  | cons i rest ih =>
    by_cases hf : i.field = "key"
    · by_cases hu : i.unique = true
      · simp [scanIndices, hf, hu]
      · have hu' : i.unique = false := by simpa using hu
        simp [scanIndices, hf, hu', ih]
    · simp [scanIndices, hf, ih]

theorem mem_idsForKey {docs : List SettingDoc} {k : String} {n : Nat} :
    n ∈ idsForKey docs k ↔ ∃ d ∈ docs, d.key = k ∧ d._id = some n := by
  unfold idsForKey
  rw [List.mem_filterMap]
  constructor
  · rintro ⟨d, hd, hf⟩
    by_cases hk : d.key == k
    · rw [if_pos hk] at hf
      exact ⟨d, hd, eq_of_beq hk, hf⟩
    · rw [if_neg hk] at hf
      exact absurd hf (by simp)
  · rintro ⟨d, hd, hk, hid⟩
    exact ⟨d, hd, by rw [if_pos (beq_iff_eq.mpr hk)]; exact hid⟩

theorem nodup_ids_doc_eq :
    ∀ (docs : List SettingDoc), (docs.filterMap (fun d => d._id)).Nodup →
      ∀ d1 d2 n, d1 ∈ docs → d2 ∈ docs → d1._id = some n → d2._id = some n → d1 = d2 := by
  intro docs
  induction docs with
  | nil => intro _ d1 d2 n h1; exact absurd h1 (by simp)
  | cons d rest ih =>
    intro hnd d1 d2 n h1 h2 hid1 hid2
    rw [List.filterMap_cons] at hnd
    cases h1 with
    | head =>
      cases h2 with
      | head => rfl
      | tail _ h2m =>
        exfalso
        rw [hid1] at hnd
        have : n ∈ rest.filterMap (fun d => d._id) :=
          List.mem_filterMap.mpr ⟨d2, h2m, hid2⟩
        exact (List.nodup_cons.mp hnd).1 this
    | tail _ h1m =>
      cases h2 with
      | head =>
        exfalso
        rw [hid2] at hnd
        have : n ∈ rest.filterMap (fun d => d._id) :=
          List.mem_filterMap.mpr ⟨d1, h1m, hid1⟩
        exact (List.nodup_cons.mp hnd).1 this
      | tail _ h2m =>
        have hrest : (rest.filterMap (fun d => d._id)).Nodup := by
          cases hd : d._id with
          | none => rw [hd] at hnd; exact hnd
          | some m => rw [hd] at hnd; exact (List.nodup_cons.mp hnd).2
        exact ih hrest d1 d2 n h1m h2m hid1 hid2

theorem idsForKey_sublist (docs : List SettingDoc) (k : String) :
    (idsForKey docs k).Sublist (docs.filterMap (fun d => d._id)) := by
  induction docs with
  | nil => exact List.Sublist.refl _
  | cons d rest ih =>
    unfold idsForKey at ih ⊢
    rw [List.filterMap_cons, List.filterMap_cons]
    by_cases hk : d.key == k
    · rw [if_pos hk]
      cases hd : d._id with
      | none => exact ih
      | some m => exact ih.cons₂ m
    · rw [if_neg hk]
      cases hd : d._id with
      | none => exact ih
      | some m => exact ih.cons m

theorem length_idsForKey {docs : List SettingDoc} (k : String)
    (hids : ∀ d ∈ docs, d._id.isSome = true) :
    (idsForKey docs k).length = (docs.filter (fun d => d.key == k)).length := by
  induction docs with
  | nil => rfl
  | cons d rest ih =>
    have hd : d._id.isSome = true := hids d (List.mem_cons_self d rest)
    have hrest : ∀ d ∈ rest, d._id.isSome = true :=
      fun x hx => hids x (List.mem_cons_of_mem d hx)
    unfold idsForKey at ih ⊢
    rw [List.filterMap_cons, List.filter_cons]
    by_cases hk : d.key == k
    · rw [if_pos hk, if_pos hk]
      cases hid : d._id with
      | none => rw [hid] at hd; exact absurd hd (by simp)
      | some m => simpa using ih hrest
    · rw [if_neg hk, if_neg hk]
      exact ih hrest

theorem mem_dedupFirstAux {α : Type} [DecidableEq α] (x : α) :
    ∀ (l seen : List α), x ∈ dedupFirstAux seen l ↔ x ∈ l ∧ x ∉ seen := by
  intro l
  induction l with
  | nil => intro seen; simp [dedupFirstAux]
  | cons a as ih =>
    intro seen
    by_cases ha : a ∈ seen
    · rw [show dedupFirstAux seen (a :: as) = dedupFirstAux seen as from by
        simp [dedupFirstAux, ha]]
      rw [ih seen]
      constructor
      · rintro ⟨hx, hs⟩
        exact ⟨List.mem_cons_of_mem a hx, hs⟩
      · rintro ⟨hx, hs⟩
        cases List.mem_cons.mp hx with
        | inl he => exact absurd (he ▸ ha) hs
        | inr hm => exact ⟨hm, hs⟩
    · rw [show dedupFirstAux seen (a :: as) = a :: dedupFirstAux (a :: seen) as from by
        simp [dedupFirstAux, ha]]
      rw [List.mem_cons, ih (a :: seen)]
      constructor
      · rintro (he | ⟨hx, hs⟩)
        · exact ⟨he ▸ List.mem_cons_self a as, he ▸ ha⟩
        · exact ⟨List.mem_cons_of_mem a hx,
            fun hmem => hs (List.mem_cons_of_mem a hmem)⟩
      · rintro ⟨hx, hs⟩
        by_cases hxa : x = a
        · exact Or.inl hxa
        · cases List.mem_cons.mp hx with
          | inl he => exact absurd he hxa
          | inr hm =>
            refine Or.inr ⟨hm, fun hmem => ?_⟩
            cases List.mem_cons.mp hmem with
            | inl he => exact hxa he
            | inr hseen => exact hs hseen

theorem mem_docKeys {docs : List SettingDoc} {k : String} :
    k ∈ docKeys docs ↔ ∃ d ∈ docs, d.key = k := by
  unfold docKeys dedupFirst
  rw [mem_dedupFirstAux]
  simp

theorem mem_dupKeys {docs : List SettingDoc} {k : String} :
    k ∈ dupKeys docs ↔
      (∃ d ∈ docs, d.key = k) ∧ 2 ≤ (docs.filter (fun d => d.key == k)).length := by
  unfold dupKeys
  rw [List.mem_filter, mem_docKeys]
  simp

theorem mem_foldr_append {α β : Type} (f : α → List β) (b : β) :
    ∀ l : List α, b ∈ l.foldr (fun a acc => f a ++ acc) [] ↔ ∃ a ∈ l, b ∈ f a := by
  intro l
  induction l with
  | nil => simp
  | cons a as ih => simp [List.mem_append, ih]

theorem two_le_length_of_mem_ne {α : Type} {l : List α} {a b : α}
    (ha : a ∈ l) (hb : b ∈ l) (hne : a ≠ b) : 2 ≤ l.length := by
  match l with
  | [] => exact absurd ha (by simp)
  | [x] =>
    rw [List.mem_singleton] at ha hb
    exact absurd (ha.trans hb.symm) hne
  | x :: y :: t => simp [Nat.le_add_left]

theorem mem_drop_one_sortIds {l : List Nat} (hnd : l.Nodup) (n : Nat) :
    n ∈ (sortIds l).drop 1 ↔ n ∈ l ∧ ∃ m ∈ l, m < n := by
  have hperm : List.Perm (sortIds l) l := List.perm_insertionSort _ l
  have hsort : (sortIds l).Sorted (· ≤ ·) := List.sorted_insertionSort _ l
  cases hs : sortIds l with
  | nil =>
    rw [hs] at hperm
    have : l = [] := List.eq_nil_of_length_eq_zero (hperm.length_eq.symm.trans rfl)
    subst this
    simp
  | cons a t =>
    rw [hs] at hperm hsort
    have hmin : ∀ m ∈ t, a ≤ m := List.rel_of_sorted_cons hsort
    have hnds : (a :: t).Nodup := hperm.symm.nodup hnd
    have hanott : a ∉ t := (List.nodup_cons.mp hnds).1
    have hamem : a ∈ l := hperm.subset (List.mem_cons_self a t)
    simp only [List.drop_succ_cons, List.drop_zero]
    constructor
    · intro hnt
      refine ⟨hperm.subset (List.mem_cons_of_mem a hnt), a, hamem, ?_⟩
      have hle : a ≤ n := hmin n hnt
      have hne : a ≠ n := fun he => hanott (he ▸ hnt)
      omega
    · rintro ⟨hnl, m, hml, hmn⟩
      cases List.mem_cons.mp (hperm.mem_iff.mpr hnl) with
      | inl he =>
        exfalso
        cases List.mem_cons.mp (hperm.mem_iff.mpr hml) with
        | inl hme => omega
        | inr hmt => have := hmin m hmt; omega
      | inr hnt => exact hnt

theorem exists_min_of_ne_nil {l : List Nat} (hne : l ≠ []) :
    ∃ n ∈ l, ∀ m ∈ l, n ≤ m := by
  have hperm : List.Perm (sortIds l) l := List.perm_insertionSort _ l
  have hsort : (sortIds l).Sorted (· ≤ ·) := List.sorted_insertionSort _ l
  cases hs : sortIds l with
  | nil =>
    rw [hs] at hperm
    exact absurd (List.eq_nil_of_length_eq_zero (hperm.length_eq.symm.trans rfl)) hne
  | cons a t =>
    rw [hs] at hperm hsort
    refine ⟨a, hperm.subset (List.mem_cons_self a t), fun m hm => ?_⟩
    cases List.mem_cons.mp (hperm.mem_iff.mpr hm) with
    | inl he => omega
    | inr hmt => exact List.rel_of_sorted_cons hsort m hmt

/-- Characterization of the ids scheduled for deletion: the id `n` of a
stored document `d` is deleted exactly when some other document with the
same key has a strictly smaller id. -/
theorem toDelete_iff {docs : List SettingDoc}
    (hids : ∀ d ∈ docs, d._id.isSome = true)
    (hnd : (docs.filterMap (fun d => d._id)).Nodup)
    {d : SettingDoc} (hd : d ∈ docs) {n : Nat} (hn : d._id = some n) :
    n ∈ dupIdsToDelete docs ↔ ∃ m ∈ idsForKey docs d.key, m < n := by
  unfold dupIdsToDelete
  rw [mem_foldr_append]
  constructor
  · rintro ⟨k, hk, hdrop⟩
    have hndk : (idsForKey docs k).Nodup := hnd.sublist (idsForKey_sublist docs k)
    rw [mem_drop_one_sortIds hndk] at hdrop
    obtain ⟨hnk, m, hm, hlt⟩ := hdrop
    obtain ⟨d', hd', hk', hid'⟩ := mem_idsForKey.mp hnk
    have hde : d' = d := nodup_ids_doc_eq docs hnd d' d n hd' hd hid' hn
    rw [hde] at hk'
    rw [← hk'] at hm
    exact ⟨m, hm, hlt⟩
  · rintro ⟨m, hm, hlt⟩
    have hnk : n ∈ idsForKey docs d.key := mem_idsForKey.mpr ⟨d, hd, rfl, hn⟩
    refine ⟨d.key, ?_, ?_⟩
    · rw [mem_dupKeys]
      have hlen : 2 ≤ (idsForKey docs d.key).length :=
        two_le_length_of_mem_ne hm hnk (by omega)
      rw [length_idsForKey d.key hids] at hlen
      exact ⟨⟨d, hd, rfl⟩, hlen⟩
    · have hndk : (idsForKey docs d.key).Nodup :=
        hnd.sublist (idsForKey_sublist docs d.key)
      rw [mem_drop_one_sortIds hndk]
      exact ⟨hnk, m, hm, hlt⟩

/-- A stored document survives the duplicate-removal loop exactly when its
id is minimal among the documents holding its key. -/
theorem mem_reconnectDocs_iff {docs : List SettingDoc}
    (hids : ∀ d ∈ docs, d._id.isSome = true)
    (hnd : (docs.filterMap (fun d => d._id)).Nodup)
    {d : SettingDoc} (hd : d ∈ docs) {n : Nat} (hn : d._id = some n) :
    d ∈ reconnectDocs docs ↔ ∀ m ∈ idsForKey docs d.key, n ≤ m := by
  unfold reconnectDocs
  rw [List.mem_filter]
  constructor
  · rintro ⟨-, hkeep⟩ m hm
    simp only [keepDoc, hn] at hkeep
    rw [decide_eq_true_eq] at hkeep
    by_contra hlt
    exact hkeep ((toDelete_iff hids hnd hd hn).mpr ⟨m, hm, by omega⟩)
  · intro hall
    refine ⟨hd, ?_⟩
    simp only [keepDoc, hn]
    rw [decide_eq_true_eq]
    intro hmem
    obtain ⟨m, hm, hlt⟩ := (toDelete_iff hids hnd hd hn).mp hmem
    exact absurd (hall m hm) (by omega)

/-! ### C4: the index-repair routine -/

/-- C4: if a unique index on `key` already exists, `reconnect` changes
nothing. Otherwise (assuming the store-maintained invariants that every
persisted document carries an id and that ids are distinct), `reconnect`
creates a unique index on `key`, deletes only existing documents, keeps a
stored document exactly when its id is minimal among the documents sharing
its key, and hence leaves exactly one document per present key — the one
with the smallest id. -/
theorem reconnect_index_repair (st : St) :
    ((∃ i ∈ st.indices, i.field = "key" ∧ i.unique = true) → reconnect st = st) ∧
      ((¬ ∃ i ∈ st.indices, i.field = "key" ∧ i.unique = true) →
        (∀ d ∈ st.docs, d._id.isSome = true) →
        (st.docs.filterMap (fun d => d._id)).Nodup →
        (∃ i ∈ (reconnect st).indices, i.field = "key" ∧ i.unique = true) ∧
          (∀ d ∈ (reconnect st).docs, d ∈ st.docs) ∧
          (∀ d n, d ∈ st.docs → d._id = some n →
            (d ∈ (reconnect st).docs ↔ ∀ m ∈ idsForKey st.docs d.key, n ≤ m)) ∧
          (∀ k, (∃ d ∈ st.docs, d.key = k) →
            ∃ d, (d ∈ (reconnect st).docs ∧ d.key = k) ∧
              ∀ d', d' ∈ (reconnect st).docs ∧ d'.key = k → d' = d)) := by
  constructor
  · intro h
    unfold reconnect
    rw [if_pos ((scanIndices_fst_iff st.indices).mpr h)]
  · intro hno hids hnd
    have hscan : ¬ (scanIndices st.indices).1 = true :=
      fun hc => hno ((scanIndices_fst_iff st.indices).mp hc)
    have hdocs : (reconnect st).docs = reconnectDocs st.docs := by
      unfold reconnect
      rw [if_neg hscan]
    have hidx : (reconnect st).indices =
        st.indices.filter (fun i => ¬ (scanIndices st.indices).2.contains i.name) ++
          [{ name := "key_1", field := "key", unique := true }] := by
      unfold reconnect
      rw [if_neg hscan]
    refine ⟨?_, ?_, ?_, ?_⟩
    · rw [hidx]
      exact ⟨⟨"key_1", "key", true⟩,
        List.mem_append_right _ (List.mem_singleton.mpr rfl), rfl, rfl⟩
    · intro d hdm
      rw [hdocs] at hdm
      exact List.mem_of_mem_filter hdm
    · intro d n hd hn
      rw [hdocs]
      exact mem_reconnectDocs_iff hids hnd hd hn
    · rintro k ⟨d, hd, hk⟩
      have hs : d._id.isSome = true := hids d hd
      obtain ⟨nd, hnd'⟩ := Option.isSome_iff_exists.mp hs
      have hne : idsForKey st.docs k ≠ [] :=
        List.ne_nil_of_mem (mem_idsForKey.mpr ⟨d, hd, hk, hnd'⟩)
      obtain ⟨n₀, hn₀mem, hn₀min⟩ := exists_min_of_ne_nil hne
      obtain ⟨d₀, hd₀, hk₀, hid₀⟩ := mem_idsForKey.mp hn₀mem
      have hkept : d₀ ∈ reconnectDocs st.docs := by
        rw [mem_reconnectDocs_iff hids hnd hd₀ hid₀, hk₀]
        exact hn₀min
      refine ⟨d₀, ⟨by rw [hdocs]; exact hkept, hk₀⟩, ?_⟩
      rintro d' ⟨hd'kept, hk'⟩
      rw [hdocs] at hd'kept
      have hd'docs : d' ∈ st.docs := List.mem_of_mem_filter hd'kept
      obtain ⟨n', hn'⟩ := Option.isSome_iff_exists.mp (hids d' hd'docs)
      have hmin' : ∀ m ∈ idsForKey st.docs d'.key, n' ≤ m :=
        (mem_reconnectDocs_iff hids hnd hd'docs hn').mp hd'kept
      rw [hk'] at hmin'
      have h1 : n' ≤ n₀ := hmin' n₀ hn₀mem
      have h2 : n₀ ≤ n' := hn₀min n' (mem_idsForKey.mpr ⟨d', hd'docs, hk', hn'⟩)
      have heq : n' = n₀ := le_antisymm h1 h2
      exact nodup_ids_doc_eq st.docs hnd d' d₀ n₀ hd'docs hd₀ (heq ▸ hn') hid₀

/-- C4 witness: `reconnect` is the identity on a state that already has a
unique `key` index, and on a state with a duplicate key and only a
non-unique `key` index it produces a unique `key` index (and, by direct
computation elsewhere in this development, keeps only the smaller-id
duplicate). -/
theorem reconnect_index_repair_witness :
    reconnect ⟨[⟨some 5, "a", Value.int 1⟩], 6, [⟨"key_1", "key", true⟩]⟩ =
        ⟨[⟨some 5, "a", Value.int 1⟩], 6, [⟨"key_1", "key", true⟩]⟩ ∧
      ∃ i ∈ (reconnect ⟨[⟨some 5, "a", Value.int 1⟩, ⟨some 2, "a", Value.int 2⟩,
          ⟨some 3, "b", Value.int 3⟩], 6, [⟨"key_1b", "key", false⟩]⟩).indices,
        i.field = "key" ∧ i.unique = true :=
  ⟨(reconnect_index_repair _).1 (by decide),
    ((reconnect_index_repair _).2 (by decide) (by decide) (by decide)).1⟩

end GirderSetting
